import Mathlib

/-
  Verification of the deeplink tree-mirroring tool (src/deeplink/deeplink.py).

  Shallow embedding conventions:
  - A pathlib.PosixPath value is embedded by its tuple of parts, as a
    List String.  For a relative path the parts are its segments, for an
    absolute path the first part is the root marker "/" (or, in the
    pathological POSIX double-slash case, "//").  PosixPath equality
    coincides with equality of parts.
  - String building followed by re-parsing, as performed by
    Path("/".join(result)), is embedded at the parts level by joinParts
    and rootJoinParts below, which are exact for parts-shaped lists
    (segments other than a leading root marker contain no slash).
  - Filesystem queries exists(), is_dir(), is_symlink() at a destination
    path are modelled by an oracle FS from paths to a Node of the three
    Boolean answers.  Fallible Python code (IndexError) returns Option
    or an explicit crash error.
-/

namespace Deeplink

/-- Parts of a path, in pathlib order: a possible root marker first,
then the segments. -/
abbrev Parts := List String

/-- Pairwise front-stripping shared by remove_front_dir and
relative_path: deletes the common leading segments of the two lists,
stopping at the first mismatch or when either list is exhausted, and
returns both remainders.  Mirrors the while loops at deeplink.py
lines 156-157 and 182-183. -/
def dropCommon2 : Parts → Parts → Parts × Parts
  | h :: hs, r :: rs => if h = r then dropCommon2 hs rs else (h :: hs, r :: rs)
  | hs, rs => (hs, rs)

/-- Parts-level result of Path(slash-join of result) for a parts-shaped
list whose head is not the single root marker: joining with "/" and
re-parsing is the identity except that a leading "//" marker followed
by more segments collapses to "/" (three or more leading slashes parse
as one). -/
def joinParts : Parts → Parts
  | ["//"] => ["//"]
  | "//" :: rs => "/" :: rs
  | l => l

/-- Parts-level result of Path("/" ++ slash-join of result) for a
parts-shaped list whose head is the root marker "/": the built string
has three leading slashes (parsing back to "/") unless the list is the
bare root, in which case the built string is exactly "//", which
pathlib parses as the special double-slash root. -/
def rootJoinParts : Parts → Parts
  | ["/"] => ["//"]
  | l => l

/-- Embedding of remove_front_dir (deeplink.py lines 143-162).  Strips
the common leading segments of head_path from item; the Python indexing
result[0] raises IndexError when nothing of item remains, modelled as
none. -/
def remove_front_dir (head_path item : Parts) : Option Parts :=
  match dropCommon2 head_path item with
  | (_, []) => none
  | (_, r :: rs) =>
    if r = "/" then some (rootJoinParts (r :: rs))
    else some (joinParts (r :: rs))

/-- Embedding of PosixPath.absolute(): an absolute path is returned
unchanged, a relative one is prefixed by the current working
directory. -/
def absParts (cwd p : Parts) : Parts :=
  if p.head? = some "/" ∨ p.head? = some "//" then p else cwd ++ p

/-- Embedding of the PosixPath truediv operator: if the right operand
is absolute it replaces the left one, otherwise the parts are
concatenated. -/
def pathDiv (a b : Parts) : Parts :=
  if b.head? = some "/" ∨ b.head? = some "//" then b else a ++ b

/-- Embedding of PosixPath.parent at the parts level: drop the last
part unless the path is a bare root or empty. -/
def pathParent (p : Parts) : Parts :=
  match p with
  | [] => []
  | ["/"] => ["/"]
  | ["//"] => ["//"]
  | l => l.dropLast

/-- Embedding of relative_path (deeplink.py lines 165-188).  Returns
the navigation path from src to dest; if dest is handed in absolute it
is returned unchanged.  The Python code first canonicalizes both
arguments with absolute(), then tests dest.parts[0], strips the common
prefix, and joins a chain of up segments with the remaining dest
segments via the truediv operator.  The indexing dest.parts[0] raises
IndexError when dest has no parts (the dot path), modelled as none. -/
def relative_path (cwd src dest : Parts) : Option Parts :=
  match dest.head? with
  | none => none
  | some h =>
    if h = "/" then some dest
    else
      some (pathDiv
        (List.replicate (dropCommon2 (absParts cwd src) (absParts cwd dest)).1.length "..")
        (joinParts (dropCommon2 (absParts cwd src) (absParts cwd dest)).2))

/-- Helper for stating segment validity: an ordinary path segment is
neither root marker. -/
def segOK (s : String) : Bool := !(s == "/") && !(s == "//")

theorem segOK_iff (s : String) : segOK s = true ↔ s ≠ "/" ∧ s ≠ "//" := by
  simp [segOK]

theorem dropCommon2_append (root x : Parts) : dropCommon2 root (root ++ x) = ([], x) := by
  induction root with
  | nil => cases x <;> rfl
  | cons h t ih => simpa [dropCommon2] using ih

theorem joinParts_of_head_ok (l : Parts) (h : l.head? ≠ some "//") : joinParts l = l := by
  match l with
  | [] => rfl
  | a :: rs =>
    simp only [List.head?] at h
    have ha : a ≠ "//" := by intro hc; exact h (by rw [hc])
    cases rs with
    | nil =>
      simp only [joinParts]
      split
      · next heq => cases heq; exact absurd rfl ha
      · next heq => cases heq; exact absurd rfl ha
      · rfl
    | cons b bs =>
      simp only [joinParts]
      split
      · next heq => cases heq
      · next heq => cases heq; exact absurd rfl ha
      · rfl

/-- Claim C7 counterexample input: when item carries no segment beyond
head_path, the Python code raises IndexError at result[0] instead of
returning the empty remainder. -/
theorem c7_counterexample : remove_front_dir ["a"] ["a"] = none := rfl

theorem remove_front_dir_append (root rest : Parts)
    (h1 : rest ≠ []) (h2 : rest ≠ ["/"]) (h3 : rest.head? ≠ some "//") :
    remove_front_dir root (root ++ rest) = some rest := by
  unfold remove_front_dir
  rw [dropCommon2_append]
  match rest, h1 with
  | r :: rs, _ =>
    show (if r = "/" then some (rootJoinParts (r :: rs))
      else some (joinParts (r :: rs))) = some (r :: rs)
    by_cases hr : r = "/"
    · subst hr
      simp only [if_pos rfl]
      cases rs with
      | nil => exact absurd rfl h2
      | cons b bs => rfl
    · rw [if_neg hr, joinParts_of_head_ok _ h3]

/-- Claim C7 (amended): for item starting with the segments of root,
remove_front_dir returns exactly the trailing segments of item not
shared with root, stripping pairwise from the front; this holds
whenever at least one segment remains, the remainder is not the bare
root marker, and the remainder does not start with the double-slash
marker.  With root the empty parts of the dot path this gives
sub-path of dot and item equal to item. -/
theorem c7_remove_front_dir_spec (root rest : Parts)
    (h1 : rest ≠ []) (h2 : rest ≠ ["/"]) (h3 : rest.head? ≠ some "//") :
    remove_front_dir root (root ++ rest) = some rest :=
  remove_front_dir_append root rest h1 h2 h3

theorem dropCommon2_snd_subset : ∀ a b : Parts, ∀ x ∈ (dropCommon2 a b).2, x ∈ b := by
  intro a
  induction a with
  | nil => intro b x hx; cases b <;> exact hx
  | cons h t ih =>
    intro b x hx
    cases b with
    | nil => simp [dropCommon2] at hx
    | cons r rs =>
      by_cases hr : h = r
      · subst hr
        simp only [dropCommon2, if_pos rfl] at hx
        exact List.mem_cons_of_mem _ (ih rs x hx)
      · simp only [dropCommon2, if_neg hr] at hx
        exact hx

theorem pathDiv_of_head_ok (a b : Parts)
    (h1 : b.head? ≠ some "/") (h2 : b.head? ≠ some "//") : pathDiv a b = a ++ b := by
  unfold pathDiv
  rw [if_neg]
  rintro (hc | hc) <;> [exact h1 hc; exact h2 hc]

theorem c7_witness :
    (["c", "d"] : Parts) ≠ [] ∧ (["c", "d"] : Parts) ≠ ["/"] ∧
      (["c", "d"] : Parts).head? ≠ some "//" ∧
      remove_front_dir ["a", "b"] ["a", "b", "c", "d"] = some ["c", "d"] :=
  ⟨by decide, by decide, by decide,
    c7_remove_front_dir_spec ["a", "b"] ["c", "d"] (by decide) (by decide) (by decide)⟩

/-- Claim C8 counterexample input: with to-dir the dot path (no
parts), the Python code raises IndexError at dest.parts[0] instead of
canonicalizing and producing the up-chain the claim prescribes (here
some [..], since the canonical forms share the prefix /, x and the
remaining from-dir depth is one). -/
theorem c8_counterexample : relative_path ["/", "x"] ["a"] [] = none := rfl

/-- Claim C8 (amended): relative_path returns to-dir unchanged when
to-dir starts with the root marker, and otherwise, for a nonempty
relative to-dir of ordinary segments, canonicalizes both directories
to absolute form against the working directory, strips their common
prefix, and returns one up segment per remaining from-dir segment
followed by the remaining to-dir segments; when only the root is
shared the up-chain length is the full depth of from-dir.  On the
empty to-dir (the dot path) the code raises IndexError instead. -/
theorem c8_relative_path_spec (cwd src dest : Parts)
    (hch : cwd.head? = some "/") (hct : ∀ s ∈ cwd.tail, segOK s = true)
    (hs : src.head? ≠ some "//") :
    (dest.head? = some "/" → relative_path cwd src dest = some dest)
    ∧ (dest ≠ [] → (∀ s ∈ dest, segOK s = true) →
        relative_path cwd src dest =
          some (List.replicate
              (dropCommon2 (absParts cwd src) (absParts cwd dest)).1.length ".."
            ++ (dropCommon2 (absParts cwd src) (absParts cwd dest)).2)) := by
  constructor
  · intro habs
    unfold relative_path
    rw [habs]
    simp
  · intro hne hd
    match dest, hne with
    | d0 :: ds, _ =>
      have hseg0 := (segOK_iff d0).1 (hd d0 (List.mem_cons_self _ _))
      obtain ⟨ct, hcw⟩ : ∃ ct, cwd = "/" :: ct := by
        cases cwd with
        | nil => simp at hch
        | cons c cs => simp only [List.head?, Option.some.injEq] at hch; exact ⟨cs, by rw [hch]⟩
      have hdl : absParts cwd (d0 :: ds) = "/" :: (ct ++ d0 :: ds) := by
        unfold absParts
        rw [if_neg, hcw]
        · rfl
        · simp only [List.head?, Option.some.injEq]
          rintro (hc | hc) <;> [exact hseg0.1 hc; exact hseg0.2 hc]
      obtain ⟨t, hsl⟩ : ∃ t, absParts cwd src = "/" :: t ∧ ∀ x ∈ t, x ∈ ct ∨ x ∈ src := by
        unfold absParts
        split
        · next hc =>
          rcases hc with hc | hc
          · cases src with
            | nil => simp at hc
            | cons s0 st =>
              simp only [List.head?, Option.some.injEq] at hc
              subst hc
              exact ⟨st, rfl, fun x hx => Or.inr (List.mem_cons_of_mem _ hx)⟩
          · exact absurd hc hs
        · rw [hcw]
          exact ⟨ct ++ src, rfl, fun x hx => (List.mem_append.1 hx).imp id id⟩
      have hstrip : dropCommon2 (absParts cwd src) (absParts cwd (d0 :: ds))
          = dropCommon2 t (ct ++ d0 :: ds) := by
        rw [hsl.1, hdl]
        simp [dropCommon2]
      have hdrest : ∀ x ∈ (dropCommon2 (absParts cwd src) (absParts cwd (d0 :: ds))).2,
          segOK x = true := by
        intro x hx
        rw [hstrip] at hx
        rcases List.mem_append.1 (dropCommon2_snd_subset _ _ x hx) with hx2 | hx2
        · exact hct x (by rw [hcw]; exact hx2)
        · exact hd x hx2
      have hdhead : ∀ v : String,
          (dropCommon2 (absParts cwd src) (absParts cwd (d0 :: ds))).2.head? = some v →
            v ≠ "/" ∧ v ≠ "//" := by
        intro v hv
        exact (segOK_iff v).1 (hdrest v (List.mem_of_mem_head? hv))
      unfold relative_path
      show (if d0 = "/" then some (d0 :: ds) else _) = _
      rw [if_neg hseg0.1, joinParts_of_head_ok, pathDiv_of_head_ok]
      · intro hc; exact ((hdhead _ hc).1 rfl)
      · intro hc; exact ((hdhead _ hc).2 rfl)
      · intro hc; exact ((hdhead _ hc).2 rfl)

theorem c8_witness :
    (["/", "w"] : Parts).head? = some "/"
      ∧ (∀ s ∈ (["/", "w"] : Parts).tail, segOK s = true)
      ∧ (["a", "b"] : Parts).head? ≠ some "//"
      ∧ (["k"] : Parts) ≠ [] ∧ (∀ s ∈ (["k"] : Parts), segOK s = true)
      ∧ relative_path ["/", "w"] ["a", "b"] ["k"] = some ["..", "..", "k"] :=
  ⟨by decide, by decide, by decide, by decide, by decide,
    ((c8_relative_path_spec ["/", "w"] ["a", "b"] ["k"] (by decide) (by decide)
        (by decide)).2 (by decide) (by decide)).trans (by decide)⟩

/-- Answers the filesystem gives about one destination path: the
results of the pathlib queries exists() (which follows symlinks),
is_dir() (follows symlinks) and is_symlink(), plus, for links the run
itself created, the path string handed to symlink_to or link_to. -/
structure Node where
  existsB : Bool
  isDirB : Bool
  isSymlinkB : Bool
  linkArg : Option Parts
deriving DecidableEq

/-- Node of an absent path. -/
def emptyNode : Node := ⟨false, false, false, none⟩

/-- Filesystem oracle: the Node seen at each path. -/
def FS : Type := Parts → Node

/-- Pointwise update of the filesystem at one path. -/
def FS.set (fs : FS) (p : Parts) (n : Node) : FS :=
  fun q => if q = p then n else fs q

theorem FS.set_ne (fs : FS) (p : Parts) (n : Node) (q : Parts) (h : q ≠ p) :
    FS.set fs p n q = fs q := by
  unfold FS.set
  rw [if_neg h]

/-- One reported or performed step of a run.  For the dry-run executor
an Action is a printed report; for the mutating executor it is the
filesystem change performed.  A link action records the source item
before relativization, as the dry-run report does; the relative path
actually stored by the mutating variant is kept in the written Node. -/
inductive Action where
  | mkdir (p : Parts)
  | link (src target : Parts)
  | copy (src target : Parts)
deriving DecidableEq

/-- Failure of a run: the two conflict exception classes of
deeplink.py (FileReplacementError for mkdir and link conflicts,
DirectoryReplacementError for copy conflicts), plus fileNotFound for
the uncaught FileNotFoundError the hard-link branch raises (see
linkExecutor below) and crash for an uncaught IndexError inside path
arithmetic. -/
inductive RunErr where
  | fileReplacement (p : Parts)
  | directoryReplacement (p : Parts)
  | fileNotFound (p : Parts)
  | crash
deriving DecidableEq

/-- Capability set of an executor: mkdir, link and copy, each mapping
the current filesystem to an error or to the produced actions and the
resulting filesystem. -/
structure ExecOps where
  mkdirOp : FS → Parts → Except RunErr (List Action × FS)
  linkOp : FS → Parts → Parts → Except RunErr (List Action × FS)
  copyOp : FS → Parts → Parts → Except RunErr (List Action × FS)

/-- Embedding of DryRunExecutor (deeplink.py lines 208-229): identical
conflict checks to the mutating executor, reports instead of acting,
never changes the filesystem. -/
def dryRunExecutor : ExecOps where
  mkdirOp fs p :=
    if (fs p).existsB then
      if !(fs p).isDirB then .error (.fileReplacement p) else .ok ([], fs)
    else .ok ([.mkdir p], fs)
  linkOp fs src target :=
    if (fs target).existsB || (fs target).isSymlinkB then
      .error (.fileReplacement target)
    else .ok ([.link src target], fs)
  copyOp fs src target :=
    if (fs target).existsB && (fs target).isDirB then
      .error (.directoryReplacement target)
    else .ok ([.copy src target], fs)

/-- Embedding of LinkExecutor (deeplink.py lines 232-257).  The link
method first replaces src by relative_path(target.parent, src) and
then calls target.link_to(src) when the hard flag is set, else
target.symlink_to(src).  The symlink branch creates a symbolic link at
the target; the written Node records the answer future queries would
see (a fresh symlink resolves to the just-listed source item, so it
exists and is not a directory) together with the stored path.  The
hard branch never creates anything at the target: pathlib link_to is
os.link(self, target), with the arguments in the reverse of the
documented reading, so target.link_to(src) asks the OS for a new hard
link named by the relative src string pointing at the target path,
which was just checked not to exist, and os.link raises an uncaught
FileNotFoundError (and Python 3.12 removed link_to entirely, raising
AttributeError); either way the run aborts, modelled as the
fileNotFound error.  The copy method overwrites through an existing
symlink, so the is_symlink answer of the target is preserved. -/
def linkExecutor (hard : Bool) (cwd : Parts) : ExecOps where
  mkdirOp fs p :=
    if (fs p).existsB then
      if !(fs p).isDirB then .error (.fileReplacement p) else .ok ([], fs)
    else .ok ([.mkdir p], FS.set fs p ⟨true, true, false, none⟩)
  linkOp fs src target :=
    if (fs target).existsB || (fs target).isSymlinkB then
      .error (.fileReplacement target)
    else
      match relative_path cwd (pathParent target) src with
      | none => .error .crash
      | some rel =>
        if hard then .error (.fileNotFound target)
        else .ok ([.link src target],
          FS.set fs target ⟨true, false, true, some rel⟩)
  copyOp fs src target :=
    if (fs target).existsB && (fs target).isDirB then
      .error (.directoryReplacement target)
    else .ok ([.copy src target],
        FS.set fs target ⟨true, false, (fs target).isSymlinkB, none⟩)

/-- Claim C5: in both executor variants create-link fails with the
target-exists conflict (FileReplacementError on the target) exactly
when the target exists or is a symlink, so an existing entry,
including an existing or dangling symlink, is never replaced; on the
non-error branch with the hard flag clear the mutating variant creates
a symbolic link at the target whose stored path is relative_path of
the parent of the target and the source.  The claimed hard-link half
is a code bug: with the hard flag set the code calls
target.link_to(rel), and pathlib link_to passes its arguments to
os.link in reverse, so it attempts a new hard link named rel pointing
at the still-nonexistent target and raises an uncaught
FileNotFoundError; no hard link is ever created at the target. -/
theorem c5_create_link (hard : Bool) (cwd : Parts) (fs : FS) (src target : Parts) :
    (((linkExecutor hard cwd).linkOp fs src target = .error (.fileReplacement target))
        ↔ ((fs target).existsB = true ∨ (fs target).isSymlinkB = true))
    ∧ ((dryRunExecutor.linkOp fs src target = .error (.fileReplacement target))
        ↔ ((fs target).existsB = true ∨ (fs target).isSymlinkB = true))
    ∧ (∀ rel, (fs target).existsB = false → (fs target).isSymlinkB = false →
        relative_path cwd (pathParent target) src = some rel →
          (linkExecutor false cwd).linkOp fs src target =
              .ok ([.link src target],
                FS.set fs target ⟨true, false, true, some rel⟩)
            ∧ (linkExecutor true cwd).linkOp fs src target
              = .error (.fileNotFound target)) := by
  refine ⟨?_, ?_, ?_⟩
  · by_cases hcond : ((fs target).existsB || (fs target).isSymlinkB) = true
    · simp only [linkExecutor]
      rw [if_pos hcond]
      simp only [Bool.or_eq_true] at hcond
      simp [hcond]
    · have hcf : ((fs target).existsB || (fs target).isSymlinkB) = false := by
        revert hcond
        cases ((fs target).existsB || (fs target).isSymlinkB) <;> simp
      simp only [linkExecutor]
      rw [if_neg hcond]
      constructor
      · intro h
        rcases hrel : relative_path cwd (pathParent target) src with _ | rel <;>
          rw [hrel] at h
        · simp at h
        · by_cases hh : hard = true
          · rw [hh] at h
            simp at h
          · have hh2 : hard = false := by
              revert hh
              cases hard <;> simp
            rw [hh2] at h
            simp at h
      · intro h
        have hct : ((fs target).existsB || (fs target).isSymlinkB) = true := by
          rcases h with h | h <;> simp [h]
        rw [hcf] at hct
        exact absurd hct (by simp)
  · by_cases hcond : ((fs target).existsB || (fs target).isSymlinkB) = true
    · simp only [dryRunExecutor]
      rw [if_pos hcond]
      simp only [Bool.or_eq_true] at hcond
      simp [hcond]
    · have hcf : ((fs target).existsB || (fs target).isSymlinkB) = false := by
        revert hcond
        cases ((fs target).existsB || (fs target).isSymlinkB) <;> simp
      simp only [dryRunExecutor]
      rw [if_neg hcond]
      constructor
      · intro h
        simp at h
      · intro h
        have hct : ((fs target).existsB || (fs target).isSymlinkB) = true := by
          rcases h with h | h <;> simp [h]
        rw [hcf] at hct
        exact absurd hct (by simp)
  · intro rel h1 h2 h3
    constructor
    · simp [linkExecutor, h1, h2, h3]
    · simp [linkExecutor, h1, h2, h3]

theorem c5_witness :
    ((fun _ => emptyNode : FS) ["d", "f"]).existsB = false
      ∧ ((fun _ => emptyNode : FS) ["d", "f"]).isSymlinkB = false
      ∧ relative_path ["/", "w"] (pathParent ["d", "f"]) ["s", "f"]
          = some ["..", "s", "f"]
      ∧ ((linkExecutor false ["/", "w"]).linkOp (fun _ => emptyNode) ["s", "f"] ["d", "f"]
          = .ok ([.link ["s", "f"] ["d", "f"]],
              FS.set (fun _ => emptyNode) ["d", "f"] ⟨true, false, true, some ["..", "s", "f"]⟩)
        ∧ (linkExecutor true ["/", "w"]).linkOp (fun _ => emptyNode) ["s", "f"] ["d", "f"]
          = .error (.fileNotFound ["d", "f"])) :=
  ⟨rfl, rfl, rfl,
    (c5_create_link true ["/", "w"] (fun _ => emptyNode) ["s", "f"] ["d", "f"]).2.2
      ["..", "s", "f"] rfl rfl rfl⟩

/-- Claim C6: in both executor variants copy-file fails with the
directory-blocks-file conflict (DirectoryReplacementError on the
target) exactly when the target exists and is a directory; when the
target exists and is not a directory both variants proceed without
error, the mutating one silently overwriting the file contents, in
contrast to the strict refusal of create-link. -/
theorem c6_copy_file (hard : Bool) (cwd : Parts) (fs : FS) (src target : Parts) :
    (((linkExecutor hard cwd).copyOp fs src target = .error (.directoryReplacement target))
        ↔ ((fs target).existsB = true ∧ (fs target).isDirB = true))
    ∧ ((dryRunExecutor.copyOp fs src target = .error (.directoryReplacement target))
        ↔ ((fs target).existsB = true ∧ (fs target).isDirB = true))
    ∧ ((fs target).existsB = true → (fs target).isDirB = false →
        (linkExecutor hard cwd).copyOp fs src target =
          .ok ([.copy src target],
            FS.set fs target ⟨true, false, (fs target).isSymlinkB, none⟩))
    ∧ ((fs target).existsB = true → (fs target).isDirB = false →
        dryRunExecutor.copyOp fs src target = .ok ([.copy src target], fs)) := by
  refine ⟨?_, ?_, ?_, ?_⟩
  · by_cases hcond : ((fs target).existsB && (fs target).isDirB) = true
    · simp only [linkExecutor]
      rw [if_pos hcond]
      simp only [Bool.and_eq_true] at hcond
      simp [hcond]
    · have hcf : ((fs target).existsB && (fs target).isDirB) = false := by
        revert hcond
        cases ((fs target).existsB && (fs target).isDirB) <;> simp
      simp only [linkExecutor]
      rw [if_neg hcond]
      constructor
      · intro h
        simp at h
      · intro h
        have hct : ((fs target).existsB && (fs target).isDirB) = true := by
          simp [h.1, h.2]
        rw [hcf] at hct
        exact absurd hct (by simp)
  · by_cases hcond : ((fs target).existsB && (fs target).isDirB) = true
    · simp only [dryRunExecutor]
      rw [if_pos hcond]
      simp only [Bool.and_eq_true] at hcond
      simp [hcond]
    · have hcf : ((fs target).existsB && (fs target).isDirB) = false := by
        revert hcond
        cases ((fs target).existsB && (fs target).isDirB) <;> simp
      simp only [dryRunExecutor]
      rw [if_neg hcond]
      constructor
      · intro h
        simp at h
      · intro h
        have hct : ((fs target).existsB && (fs target).isDirB) = true := by
          simp [h.1, h.2]
        rw [hcf] at hct
        exact absurd hct (by simp)
  · intro h1 h2
    simp [linkExecutor, h1, h2]
  · intro h1 h2
    simp [dryRunExecutor, h1, h2]

theorem c6_witness :
    (((fun q => if q = ["d", "f"] then ⟨true, false, false, none⟩ else emptyNode : FS)
        ["d", "f"]).existsB = true)
      ∧ (((fun q => if q = ["d", "f"] then ⟨true, false, false, none⟩ else emptyNode : FS)
        ["d", "f"]).isDirB = false)
      ∧ (linkExecutor false ["/", "w"]).copyOp
          (fun q => if q = ["d", "f"] then ⟨true, false, false, none⟩ else emptyNode)
          ["s", "f"] ["d", "f"]
        = .ok ([.copy ["s", "f"] ["d", "f"]],
            FS.set (fun q => if q = ["d", "f"] then ⟨true, false, false, none⟩ else emptyNode)
              ["d", "f"] ⟨true, false, false, none⟩) :=
  ⟨by decide, by decide,
    (c6_copy_file false ["/", "w"]
      (fun q => if q = ["d", "f"] then ⟨true, false, false, none⟩ else emptyNode)
      ["s", "f"] ["d", "f"]).2.2.1 (by decide) (by decide)⟩

/-- Kind of a source entry: regular file, real directory, or symlink.
A symlink carries the Boolean answer of the pathlib is_dir() query,
which follows the link, so a symlink to an existing directory answers
true and a symlink to a file or a dangling symlink answers false. -/
inductive EKind where
  | file
  | dir
  | symlink (isDirB : Bool)
deriving DecidableEq

mutual
/-- A source entry as seen by iterdir: its name, its kind, and the
listing obtained by iterating it (for a symlink whose is_dir answer is
true this is the listing of the directory the link resolves to;
children of non-directories are unused). -/
inductive Entry where
  | mk (name : String) (kind : EKind) (children : EntryList)
  deriving DecidableEq
/-- A directory listing, as a list of entries in traversal order. -/
inductive EntryList where
  | nil
  | cons (e : Entry) (es : EntryList)
  deriving DecidableEq
end

def entryName : Entry → String
  | .mk n _ _ => n

/-- Answer of the pathlib is_dir query for an entry of the given kind. -/
def isDirK : EKind → Bool
  | .file => false
  | .dir => true
  | .symlink b => b

/-- Configuration handed to create_links: the argparse namespace
fields it reads.  The compiled copy and ignore regexes are abstracted
as match-at-start predicates on the posix path string (the cached
compiled lists are recomputed from the same argparse fields on every
call, see the cache embedding below, so the walker sees these fixed
predicates on every level). -/
structure Config where
  source : Parts
  destination : Parts
  hardLinks : Bool
  dryRun : Bool
  copyPats : List (String → Bool)
  ignorePats : List (String → Bool)

/-- Embedding of the posix path string of a parts list, fed to the
pattern predicates; matches PosixPath.as_posix on parts-shaped
lists. -/
def asPosix : Parts → String
  | [] => "."
  | "/" :: rest => "/" ++ String.intercalate "/" rest
  | "//" :: rest => "//" ++ String.intercalate "/" rest
  | l => String.intercalate "/" l

/-- Executor selection at the top of create_links (deeplink.py lines
275-277): the dry-run flag picks DryRunExecutor, else LinkExecutor
with the hard-links flag; the current working directory feeds the
absolute() calls inside relative_path. -/
def chooseExecutor (cfg : Config) (cwd : Parts) : ExecOps :=
  if cfg.dryRun then dryRunExecutor else linkExecutor cfg.hardLinks cwd

/-- Sequencing of two stages of a run: an exception in the first stage
aborts (as a Python exception unwinds the recursion); otherwise the
second stage starts from the filesystem the first stage left, and the
printed or performed actions accumulate in order. -/
def chainRun (r : Except RunErr (List Action × FS))
    (f : FS → Except RunErr (List Action × FS)) : Except RunErr (List Action × FS) :=
  match r with
  | .error e1 => .error e1
  | .ok (a1, fs1) =>
    match f fs1 with
    | .error e2 => .error e2
    | .ok (a2, fs2) => .ok (a1 ++ a2, fs2)

mutual
/-- Body of the per-item for loop of create_links (deeplink.py lines
298-324) for the entry at path ++ [name].  The destination is
destination / remove_front_dir(source, item) (an IndexError inside
remove_front_dir aborts as crash); an item matching an ignore pattern
is skipped; a directory item other than the destination root is
recreated with mkdir and recursed into; any other item is copied when
a copy pattern matches and linked otherwise. -/
def walkEntry (cfg : Config) (cwd path : Parts) (e : Entry) (fs : FS) :
    Except RunErr (List Action × FS) :=
  match e with
  | .mk n k ch =>
    match remove_front_dir cfg.source (path ++ [n]) with
    | none => .error .crash
    | some rel =>
      if cfg.ignorePats.any (fun pat => pat (asPosix (path ++ [n]))) then .ok ([], fs)
      else
        if isDirK k then
          if path ++ [n] ≠ cfg.destination then
            chainRun ((chooseExecutor cfg cwd).mkdirOp fs (pathDiv cfg.destination rel))
              (fun fs1 => walkList cfg cwd (path ++ [n]) ch fs1)
          else .ok ([], fs)
        else
          if cfg.copyPats.any (fun pat => pat (asPosix (path ++ [n]))) then
            (chooseExecutor cfg cwd).copyOp fs (path ++ [n]) (pathDiv cfg.destination rel)
          else
            (chooseExecutor cfg cwd).linkOp fs (path ++ [n]) (pathDiv cfg.destination rel)

/-- Embedding of the recursive walker create_links (deeplink.py lines
295-324) over the listing of the directory at path: the loop body runs
for each entry in order; an executor exception or crash aborts the
whole traversal; actions accumulate in traversal order. -/
def walkList (cfg : Config) (cwd path : Parts) (es : EntryList) (fs : FS) :
    Except RunErr (List Action × FS) :=
  match es with
  | .nil => .ok ([], fs)
  | .cons e rest =>
    chainRun (walkEntry cfg cwd path e fs)
      (fun fs1 => walkList cfg cwd path rest fs1)
end

/-- A whole run of create_links(args) with the default path, walking
the listing of the source root. -/
def runDeeplink (cfg : Config) (cwd : Parts) (tree : EntryList) (fs : FS) :
    Except RunErr (List Action × FS) :=
  walkList cfg cwd cfg.source tree fs

/-- Claim C1 counterexample input: a source listing holding one
symlink entry lnk whose is_dir answer is true (it points to an
existing directory) containing a file f.  The claim requires the
walker to link the symlink as a leaf (one link action on the symlink
itself, no recursion); the run instead recreates it as a real
directory at the destination and recurses through it, linking its
child. -/
theorem c1_counterexample :
    (walkList ⟨["s"], ["d"], false, false, [], []⟩ ["/", "w"] ["s"]
        (.cons (.mk "lnk" (.symlink true) (.cons (.mk "f" .file .nil) .nil)) .nil)
        (fun _ => emptyNode)).map (fun r => r.1)
      = .ok [.mkdir ["d", "lnk"], .link ["s", "lnk", "f"] ["d", "lnk", "f"]] := rfl

/-- Claim C1 (amended): the walker treats a symlink entry exactly
according to the is_dir answer, which follows the link target: a
symlink answering true behaves as a real directory entry (recreated
with mkdir and recursed into, unless it is the destination root) and a
symlink answering false behaves as a file entry (linked, or copied per
the copy patterns, as a leaf); the walker itself never distinguishes a
symlink from the entry type it resolves to. -/
theorem c1_symlink_follows_is_dir (cfg : Config) (cwd path : Parts) (n : String)
    (b : Bool) (ch : EntryList) (fs : FS) :
    walkEntry cfg cwd path (.mk n (.symlink b) ch) fs
      = walkEntry cfg cwd path (.mk n (if b then .dir else .file) ch) fs := by
  cases b <;> rfl

/-- Claim C2 counterexample input: source listing holding one
directory entry out equal to the destination root.  The claim requires
the walker to treat it as a leaf and invoke create-link on it (a link
action at the computed target); the run performs no action at all on
it. -/
theorem c2_counterexample :
    (walkList ⟨["s"], ["s", "out"], false, false, [], []⟩ ["/", "w"] ["s"]
        (.cons (.mk "out" .dir .nil) .nil)
        (fun _ => emptyNode)).map (fun r => r.1)
      = .ok [] := rfl

/-- Claim C2 (amended): a directory entry identical to the destination
root is skipped entirely: the walker neither recreates it, nor
recurses into it, nor copies it, nor links it, and the filesystem and
action trace are untouched. -/
theorem c2_destination_dir_skipped (cfg : Config) (cwd path : Parts) (n : String)
    (k : EKind) (ch : EntryList) (fs : FS)
    (h1 : isDirK k = true) (h2 : path ++ [n] = cfg.destination)
    (h3 : (remove_front_dir cfg.source (path ++ [n])).isSome = true) :
    walkEntry cfg cwd path (.mk n k ch) fs = .ok ([], fs) := by
  rcases h3p : remove_front_dir cfg.source (path ++ [n]) with _ | rel
  · rw [h3p] at h3
    simp at h3
  · have hne : ¬(path ++ [n] ≠ cfg.destination) := fun hc => hc h2
    simp [walkEntry, h3p, h1, hne]

theorem c2_witness :
    isDirK .dir = true
      ∧ ((["s"] : Parts) ++ ["out"]
          = (⟨["s"], ["s", "out"], false, false, [], []⟩ : Config).destination)
      ∧ (remove_front_dir (⟨["s"], ["s", "out"], false, false, [], []⟩ : Config).source
          ((["s"] : Parts) ++ ["out"])).isSome = true
      ∧ walkEntry ⟨["s"], ["s", "out"], false, false, [], []⟩ ["/", "w"] ["s"]
          (.mk "out" .dir .nil) (fun _ => emptyNode)
        = .ok ([], (fun _ => emptyNode)) :=
  ⟨by decide, by decide, by decide,
    c2_destination_dir_skipped ⟨["s"], ["s", "out"], false, false, [], []⟩ ["/", "w"] ["s"]
      "out" .dir .nil (fun _ => emptyNode) (by decide) (by decide) (by decide)⟩

/-- Claim C9: an entry whose full source path (directory prefix
included, via as_posix) matches any ignore pattern is skipped
entirely: the walker produces no action, changes nothing, and does not
descend into a directory entry.  The statement holds for every
configuration, in particular when the entry also matches a copy
pattern, so ignore takes precedence over copy. -/
theorem c9_ignore_precedence (cfg : Config) (cwd path : Parts) (n : String)
    (k : EKind) (ch : EntryList) (fs : FS)
    (hig : cfg.ignorePats.any (fun pat => pat (asPosix (path ++ [n]))) = true)
    (h3 : (remove_front_dir cfg.source (path ++ [n])).isSome = true) :
    walkEntry cfg cwd path (.mk n k ch) fs = .ok ([], fs) := by
  rcases h3p : remove_front_dir cfg.source (path ++ [n]) with _ | rel
  · rw [h3p] at h3
    simp at h3
  · simp [walkEntry, h3p, hig]

theorem c9_witness :
    ((⟨["s"], ["d"], false, false, [fun str => str == "s/a"],
        [fun str => str == "s/a"]⟩ : Config).ignorePats.any
          (fun pat => pat (asPosix ((["s"] : Parts) ++ ["a"])))) = true
      ∧ (remove_front_dir (["s"] : Parts) ((["s"] : Parts) ++ ["a"])).isSome = true
      ∧ walkEntry ⟨["s"], ["d"], false, false, [fun str => str == "s/a"],
            [fun str => str == "s/a"]⟩ ["/", "w"] ["s"]
          (.mk "a" .file .nil) (fun _ => emptyNode)
        = .ok ([], (fun _ => emptyNode)) :=
  ⟨by decide, by decide,
    c9_ignore_precedence
      ⟨["s"], ["d"], false, false, [fun str => str == "s/a"],
        [fun str => str == "s/a"]⟩ ["/", "w"] ["s"] "a" .file .nil
      (fun _ => emptyNode) (by decide) (by decide)⟩

/-- The process-wide cache dict (deeplink.py line 17), as an
insertion-ordered key to value map; the values, lists of compiled
regular expressions, are abstracted by their pattern strings. -/
abbrev Cache := List (String × List String)

/-- Python dict membership test. -/
def cacheHasKey (c : Cache) (k : String) : Bool :=
  c.any (fun kv => kv.1 == k)

/-- Python dict item assignment: overwrite an existing key in place or
append a new one. -/
def cacheSet (c : Cache) (k : String) (v : List String) : Cache :=
  if cacheHasKey c k then
    c.map (fun kv => if kv.1 == k then (k, v) else kv)
  else c ++ [(k, v)]

/-- Python dict get with default. -/
def cacheGet (c : Cache) (k : String) (d : List String) : List String :=
  match c.find? (fun kv => kv.1 == k) with
  | some kv => kv.2
  | none => d

/-- Embedding of the copy-pattern cache paragraph at the top of
create_links (deeplink.py lines 279-285): if the key cl.cp is not in
the cache, flatten the inline copy arguments, append the copy list
file, compile, and store the compiled list under the key cl.cp_re;
otherwise read cl.cp_re back with default empty.  Returns the pattern
list the call uses together with the cache afterwards. -/
def copyCacheStep (copyArg : List (List String)) (copyListFile : List String)
    (c : Cache) : List String × Cache :=
  if !(cacheHasKey c "cl.cp") then
    (copyArg.flatten ++ copyListFile,
      cacheSet c "cl.cp_re" (copyArg.flatten ++ copyListFile))
  else (cacheGet c "cl.cp_re" [], c)

/-- Embedding of the ignore-pattern cache paragraph of create_links
(deeplink.py lines 287-293), testing key cl.ignore and storing key
cl.ignore_re. -/
def ignoreCacheStep (ignoreArg : List (List String)) (ignoreListFile : List String)
    (c : Cache) : List String × Cache :=
  if !(cacheHasKey c "cl.ignore") then
    (ignoreArg.flatten ++ ignoreListFile,
      cacheSet c "cl.ignore_re" (ignoreArg.flatten ++ ignoreListFile))
  else (cacheGet c "cl.ignore_re" [], c)

theorem cacheAnyMapSet (c : Cache) (k1 k2 : String) (v : List String) :
    (c.map (fun kv => if kv.1 == k2 then (k2, v) else kv)).any (fun kv => kv.1 == k1)
      = c.any (fun kv => if kv.1 == k2 then (k2 == k1) else kv.1 == k1) := by
  induction c with
  | nil => rfl
  | cons kv rest ih =>
    simp only [List.map_cons, List.any_cons, ih]
    by_cases hk : (kv.1 == k2) = true
    · rw [if_pos hk, if_pos hk]
    · rw [if_neg hk, if_neg hk]

theorem cacheHasKey_set_ne (c : Cache) (k1 k2 : String) (v : List String)
    (h : k1 ≠ k2) : cacheHasKey (cacheSet c k2 v) k1 = cacheHasKey c k1 := by
  unfold cacheSet
  split
  · unfold cacheHasKey
    rw [cacheAnyMapSet]
    apply congrArg
    funext kv
    by_cases hk : (kv.1 == k2) = true
    · rw [if_pos hk]
      have hkv : kv.1 = k2 := by simpa using hk
      rw [hkv]
    · rw [if_neg hk]
  · unfold cacheHasKey
    rw [List.any_append]
    have h2 : (([((k2, v))] : Cache).any (fun kv => kv.1 == k1)) = false := by
      simp only [List.any_cons, List.any_nil, Bool.or_false]
      rw [beq_eq_false_iff_ne]
      exact fun hc => h hc.symm
    rw [h2, Bool.or_false]

/-- Claim C3: the membership keys create_links tests (cl.cp and
cl.ignore) are never the keys it stores (cl.cp_re and cl.ignore_re),
so neither step ever makes its own guard key present: starting from
the empty cache of process start, the guard key is still absent after
the first call, hence the second, recursive call takes the populating
branch again and rewrites the cache instead of only reading it.  The
read-only else branch is unreachable in every run. -/
theorem c3_cache_rewritten_every_call (a : List (List String)) (b : List String)
    (c : Cache) :
    cacheHasKey (copyCacheStep a b c).2 "cl.cp" = cacheHasKey c "cl.cp"
      ∧ cacheHasKey (ignoreCacheStep a b c).2 "cl.ignore" = cacheHasKey c "cl.ignore"
      ∧ cacheHasKey (copyCacheStep a b ([] : Cache)).2 "cl.cp" = false
      ∧ cacheHasKey (ignoreCacheStep a b ([] : Cache)).2 "cl.ignore" = false := by
  refine ⟨?_, ?_, ?_, ?_⟩
  · unfold copyCacheStep
    split
    · exact cacheHasKey_set_ne c "cl.cp" "cl.cp_re" _ (by decide)
    · rfl
  · unfold ignoreCacheStep
    split
    · exact cacheHasKey_set_ne c "cl.ignore" "cl.ignore_re" _ (by decide)
    · rfl
  · rw [show (copyCacheStep a b ([] : Cache)).2
        = cacheSet ([] : Cache) "cl.cp_re" (a.flatten ++ b) from rfl]
    exact (cacheHasKey_set_ne [] "cl.cp" "cl.cp_re" _ (by decide)).trans rfl
  · rw [show (ignoreCacheStep a b ([] : Cache)).2
        = cacheSet ([] : Cache) "cl.ignore_re" (a.flatten ++ b) from rfl]
    exact (cacheHasKey_set_ne [] "cl.ignore" "cl.ignore_re" _ (by decide)).trans rfl

/-- Comment line test of file_as_list: the regular expression matching
lines that start with a hash (the lines handed to it carry no newline,
so the dot-star-dollar tail always matches the rest). -/
def isCommentLine (l : String) : Bool :=
  match l.toList with
  | '#' :: _ => true
  | _ => false

/-- Whitespace-only line test of file_as_list: the backslash-s class
without the newline, which the surrounding rstrip has removed. -/
def isBlankLine (l : String) : Bool :=
  l.toList.all (fun c => c = ' ' ∨ c = '\t' ∨ c = '\r' ∨ c = '\x0b' ∨ c = '\x0c')

/-- Embedding of file_as_list (deeplink.py lines 33-48) over the
sequence of lines of the file, each already stripped of its trailing
newline as the readline-rstrip pair produces them.  The Python loop
condition, while line, is false both at end of file and at an empty
line, so reading stops at the first empty line; a nonempty line is
kept unless the comment or whitespace-only pattern matches it. -/
def file_as_list : List String → List String
  | [] => []
  | l :: ls =>
    if l = "" then []
    else if !isCommentLine l && !isBlankLine l then l :: file_as_list ls
    else file_as_list ls

/-- Claim C10 failing input: the file with lines hash-header, alpha,
an empty line, beta.  The claim requires both alpha and beta to become
patterns (every non-comment, non-blank line, regardless of position);
the code stops reading at the empty third line and silently drops
beta.  A whitespace-only line, by contrast, is skipped and reading
continues, which shows the loss is specific to fully empty lines. -/
theorem c10_stops_at_first_empty_line :
    file_as_list ["# header", "alpha", "", "beta"] = ["alpha"]
      ∧ file_as_list ["# header", "alpha", " ", "beta"] = ["alpha", "beta"] := by
  constructor <;> rfl

mutual
/-- Destination paths the walker may query or write while processing
one entry: its own computed target, and, for an entry taking the
directory branch, the targets of its children (entries whose target
computation crashes contribute nothing, since the walker aborts there
before touching the filesystem). -/
def entryTargets (src dst path : Parts) (e : Entry) : List Parts :=
  match e with
  | .mk n k ch =>
    match remove_front_dir src (path ++ [n]) with
    | none => []
    | some rel =>
      pathDiv dst rel :: (if isDirK k then listTargets src dst (path ++ [n]) ch else [])
/-- Destination paths for a whole listing, in traversal order. -/
def listTargets (src dst path : Parts) (es : EntryList) : List Parts :=
  match es with
  | .nil => []
  | .cons e rest => entryTargets src dst path e ++ listTargets src dst path rest
end

/-- Relation between the outcome of one dry-run operation (left,
started at the untouched filesystem fs) and the matching mutating
operation (right, started at the evolved filesystem fsR): both fail
with the same error, or both succeed with the same reported and
performed actions, with the dry filesystem untouched and the mutating
write confined to the operation target. -/
def RelOp (fs fsR : FS) (t : Parts) :
    Except RunErr (List Action × FS) → Except RunErr (List Action × FS) → Prop
  | .error a, .error b => a = b
  | .ok (a1, f1), .ok (a2, f2) => a1 = a2 ∧ f1 = fs ∧ ∀ q, q ≠ t → f2 q = fsR q
  | .error _, .ok _ => False
  | .ok _, .error _ => False

/-- Relation between a dry-run traversal outcome and the matching
mutating traversal outcome over a target set T: same error, or same
actions with the dry filesystem untouched and mutating writes confined
to T. -/
def RelRes (fs fsR : FS) (T : List Parts) :
    Except RunErr (List Action × FS) → Except RunErr (List Action × FS) → Prop
  | .error a, .error b => a = b
  | .ok (a1, f1), .ok (a2, f2) => a1 = a2 ∧ f1 = fs ∧ ∀ q, q ∉ T → f2 q = fsR q
  | .error _, .ok _ => False
  | .ok _, .error _ => False

theorem mkdirOp_rel (hard : Bool) (cwd : Parts) (fs fsR : FS) (t : Parts)
    (h : fsR t = fs t) :
    RelOp fs fsR t (dryRunExecutor.mkdirOp fs t) ((linkExecutor hard cwd).mkdirOp fsR t) := by
  simp only [dryRunExecutor, linkExecutor]
  rw [h]
  by_cases he : (fs t).existsB = true
  · rw [if_pos he, if_pos he]
    by_cases hd : (!(fs t).isDirB) = true
    · rw [if_pos hd, if_pos hd]
      exact rfl
    · rw [if_neg hd, if_neg hd]
      exact ⟨rfl, rfl, fun q _ => rfl⟩
  · rw [if_neg he, if_neg he]
    exact ⟨rfl, rfl, fun q hq => FS.set_ne fsR t _ q hq⟩

theorem relative_path_some (cwd p src : Parts) (hsrc : src ≠ []) :
    ∃ rel, relative_path cwd p src = some rel := by
  match src, hsrc with
  | s0 :: ss, _ =>
    unfold relative_path
    show ∃ rel, (if s0 = "/" then some (s0 :: ss) else _) = some rel
    split
    · exact ⟨_, rfl⟩
    · exact ⟨_, rfl⟩

theorem linkOp_rel (hard : Bool) (cwd : Parts) (fs fsR : FS) (src t : Parts)
    (h : fsR t = fs t) (hsrc : src ≠ []) (hh : hard = false) :
    RelOp fs fsR t (dryRunExecutor.linkOp fs src t)
      ((linkExecutor hard cwd).linkOp fsR src t) := by
  subst hh
  simp only [dryRunExecutor, linkExecutor]
  rw [h]
  by_cases hc : ((fs t).existsB || (fs t).isSymlinkB) = true
  · rw [if_pos hc, if_pos hc]
    exact rfl
  · rw [if_neg hc, if_neg hc]
    obtain ⟨rel, hrel⟩ := relative_path_some cwd (pathParent t) src hsrc
    rw [hrel]
    exact ⟨rfl, rfl, fun q hq => FS.set_ne fsR t _ q hq⟩

theorem copyOp_rel (hard : Bool) (cwd : Parts) (fs fsR : FS) (src t : Parts)
    (h : fsR t = fs t) :
    RelOp fs fsR t (dryRunExecutor.copyOp fs src t)
      ((linkExecutor hard cwd).copyOp fsR src t) := by
  simp only [dryRunExecutor, linkExecutor]
  rw [h]
  by_cases hc : ((fs t).existsB && (fs t).isDirB) = true
  · rw [if_pos hc, if_pos hc]
    exact rfl
  · rw [if_neg hc, if_neg hc]
    exact ⟨rfl, rfl, fun q hq => FS.set_ne fsR t _ q hq⟩

theorem RelRes_of_RelOp (fs fsR : FS) (t : Parts) (d r : Except RunErr (List Action × FS))
    (h : RelOp fs fsR t d r) : RelRes fs fsR [t] d r := by
  match d, r with
  | .error a, .error b => exact h
  | .ok (a1, f1), .ok (a2, f2) =>
    obtain ⟨h1, h2, h3⟩ := h
    exact ⟨h1, h2, fun q hq => h3 q (by simpa using hq)⟩
  | .error _, .ok _ => exact h
  | .ok _, .error _ => exact h

theorem chainRun_rel (fs fsR : FS) (T1 T2 : List Parts)
    (d1 r1 : Except RunErr (List Action × FS))
    (d2 r2 : FS → Except RunErr (List Action × FS))
    (h1 : RelRes fs fsR T1 d1 r1)
    (h2 : ∀ f2 : FS, (∀ q, q ∉ T1 → f2 q = fsR q) → RelRes fs f2 T2 (d2 fs) (r2 f2)) :
    RelRes fs fsR (T1 ++ T2) (chainRun d1 d2) (chainRun r1 r2) := by
  match d1, r1 with
  | .error a, .error b =>
    have hab : a = b := h1
    rw [hab]
    exact rfl
  | .error a, .ok x => exact False.elim h1
  | .ok x, .error b => exact False.elim h1
  | .ok (a1, f1), .ok (a2, f2) =>
    obtain ⟨ha, hf1, hloc⟩ := h1
    have hseq := h2 f2 hloc
    show RelRes fs fsR (T1 ++ T2)
      (match d2 f1 with
        | .error e2 => .error e2
        | .ok (a3, fs2) => .ok (a1 ++ a3, fs2))
      (match r2 f2 with
        | .error e2 => .error e2
        | .ok (a3, fs2) => .ok (a2 ++ a3, fs2))
    rw [hf1]
    rcases hd2 : d2 fs with ea | ⟨a3, f3⟩ <;>
      rcases hr2 : r2 f2 with eb | ⟨a4, f4⟩ <;> rw [hd2, hr2] at hseq
    · exact hseq
    · exact False.elim hseq
    · exact False.elim hseq
    · obtain ⟨ha2, hf3, hloc2⟩ := hseq
      have hfin : ∀ q, q ∉ T1 ++ T2 → f4 q = fsR q := by
        intro q hq
        simp only [List.mem_append] at hq
        push_neg at hq
        rw [hloc2 q hq.2, hloc q hq.1]
      exact ⟨by rw [ha, ha2], hf3, hfin⟩

mutual
/-- Core simulation for one entry: given that the evolved filesystem
of the mutating run agrees with the pristine one on every destination
path this entry can touch, and that those paths are pairwise distinct,
the dry run and the mutating run of the entry fail with the same error
or produce the same actions, with mutating writes confined to the
target set. -/
theorem walkEntry_equiv (cfg : Config) (cwd path : Parts) (e : Entry) (fs fsR : FS)
    (hhl : cfg.hardLinks = false)
    (hag : ∀ q ∈ entryTargets cfg.source cfg.destination path e, fsR q = fs q)
    (hnd : (entryTargets cfg.source cfg.destination path e).Nodup) :
    RelRes fs fsR (entryTargets cfg.source cfg.destination path e)
      (walkEntry { cfg with dryRun := true } cwd path e fs)
      (walkEntry { cfg with dryRun := false } cwd path e fsR) := by
  match e with
  | .mk n k ch =>
    rcases hrm : remove_front_dir cfg.source (path ++ [n]) with _ | rel
    · simp only [walkEntry, hrm]
      exact rfl
    · simp only [entryTargets, hrm] at hag hnd
      simp only [walkEntry, hrm]
      by_cases hig : (cfg.ignorePats.any (fun pat => pat (asPosix (path ++ [n])))) = true
      · rw [if_pos hig, if_pos hig]
        exact ⟨rfl, rfl, fun q _ => rfl⟩
      · rw [if_neg hig, if_neg hig]
        by_cases hk : isDirK k = true
        · rw [if_pos hk, if_pos hk]
          rw [if_pos hk] at hag hnd
          by_cases hdest : path ++ [n] = cfg.destination
          · have hne : ¬(path ++ [n] ≠ cfg.destination) := fun hc => hc hdest
            rw [if_neg hne, if_neg hne]
            exact ⟨rfl, rfl, fun q _ => rfl⟩
          · rw [if_pos hdest, if_pos hdest]
            have hcD : chooseExecutor { cfg with dryRun := true } cwd = dryRunExecutor := rfl
            have hcR : chooseExecutor { cfg with dryRun := false } cwd
                = linkExecutor cfg.hardLinks cwd := rfl
            rw [hcD, hcR]
            have hfst : fsR (pathDiv cfg.destination rel) = fs (pathDiv cfg.destination rel) :=
              hag _ (List.mem_cons_self _ _)
            have hnd2 := List.nodup_cons.1 hnd
            simp only [entryTargets, hrm]
            rw [if_pos hk]
            exact chainRun_rel fs fsR [pathDiv cfg.destination rel]
              (listTargets cfg.source cfg.destination (path ++ [n]) ch) _ _ _ _
              (RelRes_of_RelOp fs fsR _ _ _
                (mkdirOp_rel cfg.hardLinks cwd fs fsR (pathDiv cfg.destination rel) hfst))
              (fun f2 hloc => walkList_equiv cfg cwd (path ++ [n]) ch fs f2 hhl
                (fun q hq => by
                  have hqt : q ∉ [pathDiv cfg.destination rel] := by
                    simp only [List.mem_singleton]
                    intro hqe
                    exact hnd2.1 (hqe ▸ hq)
                  rw [hloc q hqt]
                  exact hag q (List.mem_cons_of_mem _ hq))
                hnd2.2)
        · rw [if_neg hk, if_neg hk]
          rw [if_neg hk] at hag hnd
          have hcD : chooseExecutor { cfg with dryRun := true } cwd = dryRunExecutor := rfl
          have hcR : chooseExecutor { cfg with dryRun := false } cwd
              = linkExecutor cfg.hardLinks cwd := rfl
          rw [hcD, hcR]
          have hfst : fsR (pathDiv cfg.destination rel) = fs (pathDiv cfg.destination rel) :=
            hag _ (List.mem_cons_self _ _)
          simp only [entryTargets, hrm]
          rw [if_neg hk]
          by_cases hcp : (cfg.copyPats.any (fun pat => pat (asPosix (path ++ [n])))) = true
          · rw [if_pos hcp, if_pos hcp]
            exact RelRes_of_RelOp fs fsR _ _ _
              (copyOp_rel cfg.hardLinks cwd fs fsR (path ++ [n]) _ hfst)
          · rw [if_neg hcp, if_neg hcp]
            exact RelRes_of_RelOp fs fsR _ _ _
              (linkOp_rel cfg.hardLinks cwd fs fsR (path ++ [n]) _ hfst (by simp) hhl)

/-- Core simulation for a listing, threading the evolved filesystem of
the mutating run through the entries in traversal order. -/
theorem walkList_equiv (cfg : Config) (cwd path : Parts) (es : EntryList) (fs fsR : FS)
    (hhl : cfg.hardLinks = false)
    (hag : ∀ q ∈ listTargets cfg.source cfg.destination path es, fsR q = fs q)
    (hnd : (listTargets cfg.source cfg.destination path es).Nodup) :
    RelRes fs fsR (listTargets cfg.source cfg.destination path es)
      (walkList { cfg with dryRun := true } cwd path es fs)
      (walkList { cfg with dryRun := false } cwd path es fsR) := by
  match es with
  | .nil => exact ⟨rfl, rfl, fun q _ => rfl⟩
  | .cons e rest =>
    simp only [listTargets] at hag hnd
    simp only [walkList]
    have hsplit := List.nodup_append.1 hnd
    have hagE : ∀ q ∈ entryTargets cfg.source cfg.destination path e, fsR q = fs q :=
      fun q hq => hag q (List.mem_append.2 (Or.inl hq))
    exact chainRun_rel fs fsR (entryTargets cfg.source cfg.destination path e)
      (listTargets cfg.source cfg.destination path rest) _ _ _ _
      (walkEntry_equiv cfg cwd path e fs fsR hhl hagE hsplit.1)
      (fun f2 hloc => walkList_equiv cfg cwd path rest fs f2 hhl
        (fun q hq => by
          rw [hloc q (fun hq1 => hsplit.2.2 hq1 hq)]
          exact hag q (List.mem_append.2 (Or.inr hq)))
        hsplit.2.1)
end

/-- Test that no entry of a listing carries the given name. -/
def notIn (n : String) : EntryList → Bool
  | .nil => true
  | .cons e rest => !(entryName e == n) && notIn n rest

mutual
/-- Well-formedness of a source entry, as every real filesystem
guarantees it: its name is an ordinary segment (file names cannot be a
root marker) and its listing is well formed. -/
def validE : Entry → Bool
  | .mk n _ ch => segOK n && validL ch
/-- Well-formedness of a listing: entries are well formed and sibling
names are pairwise distinct, as iterdir guarantees. -/
def validL : EntryList → Bool
  | .nil => true
  | .cons e rest => validE e && notIn (entryName e) rest && validL rest
end

mutual
/-- Source-relative destination paths of the subtree of one entry, at
the given relative prefix. -/
def relsE (pre : Parts) (e : Entry) : List Parts :=
  match e with
  | .mk n k ch => (pre ++ [n]) :: (if isDirK k then relsL (pre ++ [n]) ch else [])
/-- Source-relative destination paths of a listing. -/
def relsL (pre : Parts) (es : EntryList) : List Parts :=
  match es with
  | .nil => []
  | .cons e rest => relsE pre e ++ relsL pre rest
end

/-- Membership of an entry in a listing. -/
def eMem (x : Entry) : EntryList → Prop
  | .nil => False
  | .cons e rest => x = e ∨ eMem x rest

theorem notIn_spec (n : String) (es : EntryList) (h : notIn n es = true) :
    ∀ e2, eMem e2 es → entryName e2 ≠ n := by
  match es with
  | .nil => intro e2 he2; exact False.elim he2
  | .cons e rest =>
    simp only [notIn, Bool.and_eq_true, Bool.not_eq_true', beq_eq_false_iff_ne, ne_eq] at h
    intro e2 he2
    rcases he2 with he2 | he2
    · rw [he2]
      exact fun hc => h.1 hc
    · exact notIn_spec n rest h.2 e2 he2

mutual
theorem relsE_shape (pre : Parts) (e : Entry) :
    ∀ r ∈ relsE pre e, ∃ t, r = (pre ++ [entryName e]) ++ t := by
  match e with
  | .mk n k ch =>
    intro r hr
    simp only [relsE, List.mem_cons] at hr
    rcases hr with hr | hr
    · exact ⟨[], by rw [hr, List.append_nil]; rfl⟩
    · by_cases hk : isDirK k = true
      · rw [if_pos hk] at hr
        obtain ⟨e2, t2, _, ht2⟩ := relsL_shape (pre ++ [n]) ch r hr
        exact ⟨[entryName e2] ++ t2, by rw [ht2]; simp [List.append_assoc]; rfl⟩
      · rw [if_neg hk] at hr
        exact False.elim (List.not_mem_nil r hr)

theorem relsL_shape (pre : Parts) (es : EntryList) :
    ∀ r ∈ relsL pre es, ∃ e2 t, eMem e2 es ∧ r = (pre ++ [entryName e2]) ++ t := by
  match es with
  | .nil => intro r hr; exact False.elim (List.not_mem_nil r hr)
  | .cons e rest =>
    intro r hr
    simp only [relsL, List.mem_append] at hr
    rcases hr with hr | hr
    · obtain ⟨t, ht⟩ := relsE_shape pre e r hr
      exact ⟨e, t, Or.inl rfl, ht⟩
    · obtain ⟨e2, t, he2, ht⟩ := relsL_shape pre rest r hr
      exact ⟨e2, t, Or.inr he2, ht⟩
end

theorem head_group_cancel (pre : Parts) (a b : String) (t1 t2 : Parts)
    (h : (pre ++ [a]) ++ t1 = (pre ++ [b]) ++ t2) : a = b := by
  rw [List.append_assoc, List.append_assoc] at h
  have h2 := List.append_cancel_left h
  simpa using List.head_eq_of_cons_eq h2

mutual
theorem relsE_nodup (pre : Parts) (e : Entry) (hv : validE e = true) :
    (relsE pre e).Nodup := by
  match e with
  | .mk n k ch =>
    simp only [validE, Bool.and_eq_true] at hv
    simp only [relsE]
    rw [List.nodup_cons]
    constructor
    · intro hmem
      by_cases hk : isDirK k = true
      · rw [if_pos hk] at hmem
        obtain ⟨e2, t, _, ht⟩ := relsL_shape (pre ++ [n]) ch (pre ++ [n]) hmem
        have hlen := congrArg List.length ht
        simp at hlen
      · rw [if_neg hk] at hmem
        exact List.not_mem_nil _ hmem
    · by_cases hk : isDirK k = true
      · rw [if_pos hk]
        exact relsL_nodup (pre ++ [n]) ch hv.2
      · rw [if_neg hk]
        exact List.nodup_nil

theorem relsL_nodup (pre : Parts) (es : EntryList) (hv : validL es = true) :
    (relsL pre es).Nodup := by
  match es with
  | .nil => exact List.nodup_nil
  | .cons e rest =>
    simp only [validL, Bool.and_eq_true] at hv
    simp only [relsL]
    rw [List.nodup_append]
    refine ⟨relsE_nodup pre e hv.1.1, relsL_nodup pre rest hv.2, ?_⟩
    intro r hr1 hr2
    obtain ⟨t1, ht1⟩ := relsE_shape pre e r hr1
    obtain ⟨e2, t2, he2, ht2⟩ := relsL_shape pre rest r hr2
    have hne := notIn_spec (entryName e) rest hv.1.2 e2 he2
    exact hne (head_group_cancel pre (entryName e2) (entryName e) t2 t1
      (ht2 ▸ ht1 ▸ rfl))
end

theorem segOK_append_ok (pre : Parts) (n : String)
    (hpre : ∀ s ∈ pre, segOK s = true) (hn : segOK n = true) :
    ∀ s ∈ pre ++ [n], segOK s = true := by
  intro s hs
  rcases List.mem_append.1 hs with hs | hs
  · exact hpre s hs
  · rw [List.mem_singleton.1 hs]
    exact hn

theorem segOK_head (l : Parts) (hl : ∀ s ∈ l, segOK s = true) (v : String)
    (hv : l.head? = some v) : v ≠ "/" ∧ v ≠ "//" :=
  (segOK_iff v).1 (hl v (List.mem_of_mem_head? hv))

mutual
theorem entryTargets_eq (src dst pre : Parts) (e : Entry)
    (hpre : ∀ s ∈ pre, segOK s = true) (hv : validE e = true) :
    entryTargets src dst (src ++ pre) e = (relsE pre e).map (fun r => dst ++ r) := by
  match e with
  | .mk n k ch =>
    simp only [validE, Bool.and_eq_true] at hv
    have hall : ∀ s ∈ pre ++ [n], segOK s = true := segOK_append_ok pre n hpre hv.1
    have hne : pre ++ [n] ≠ [] := by simp
    have hhead : ∀ v, (pre ++ [n]).head? = some v → v ≠ "/" ∧ v ≠ "//" :=
      fun v hv2 => segOK_head _ hall v hv2
    obtain ⟨v0, hv0⟩ : ∃ v0, (pre ++ [n]).head? = some v0 := by
      cases hpn : pre ++ [n] with
      | nil => exact absurd hpn hne
      | cons x xs => exact ⟨x, rfl⟩
    have hrm : remove_front_dir src ((src ++ pre) ++ [n]) = some (pre ++ [n]) := by
      rw [List.append_assoc]
      exact remove_front_dir_append src (pre ++ [n]) hne
        (fun hc => (hhead "/" (by rw [hc]; rfl)).1 rfl)
        (fun hc => (hhead "//" hc).2 rfl)
    have hdiv : pathDiv dst (pre ++ [n]) = dst ++ (pre ++ [n]) :=
      pathDiv_of_head_ok dst (pre ++ [n])
        (fun hc => (hhead "/" hc).1 rfl)
        (fun hc => (hhead "//" hc).2 rfl)
    simp only [entryTargets, hrm, hdiv, relsE, List.map_cons]
    by_cases hk : isDirK k = true
    · rw [if_pos hk, if_pos hk]
      rw [show (src ++ pre) ++ [n] = src ++ (pre ++ [n]) from List.append_assoc src pre [n]]
      rw [entryTargets_eq_list src dst (pre ++ [n]) ch hall hv.2]
    · rw [if_neg hk, if_neg hk]
      rfl

theorem entryTargets_eq_list (src dst pre : Parts) (es : EntryList)
    (hpre : ∀ s ∈ pre, segOK s = true) (hv : validL es = true) :
    listTargets src dst (src ++ pre) es = (relsL pre es).map (fun r => dst ++ r) := by
  match es with
  | .nil => rfl
  | .cons e rest =>
    simp only [validL, Bool.and_eq_true] at hv
    simp only [listTargets, relsL, List.map_append]
    rw [entryTargets_eq src dst pre e hpre hv.1.1,
      entryTargets_eq_list src dst pre rest hpre hv.2]
end

theorem listTargets_nodup (src dst : Parts) (es : EntryList) (hv : validL es = true) :
    (listTargets src dst src es).Nodup := by
  have h1 : listTargets src dst src es = (relsL [] es).map (fun r => dst ++ r) := by
    have h2 := entryTargets_eq_list src dst [] es (by simp) hv
    rw [List.append_nil] at h2
    exact h2
  rw [h1]
  exact (relsL_nodup [] es hv).map
    (fun a b hab => List.append_cancel_left hab)

/-- Claim C4 counterexample input: a configuration with the hard-link
flag set, one source file f, and an empty destination.  The dry run
reports the link of f, but the mutating run performs no filesystem
change at all: its link step aborts with the uncaught
FileNotFoundError that the reversed-argument link_to raises, so the
reported action set and the performed change set differ, and the
failure is not even a conflict error.  This refutes the claimed
equivalence for every configuration. -/
theorem c4_counterexample :
    runDeeplink { (⟨["s"], ["d"], true, false, [], []⟩ : Config) with dryRun := true }
        ["/", "w"] (.cons (.mk "f" .file .nil) .nil) (fun _ => emptyNode)
      ≠ Except.map (fun r => (r.1, (fun _ => emptyNode : FS)))
          (runDeeplink { (⟨["s"], ["d"], true, false, [], []⟩ : Config) with dryRun := false }
            ["/", "w"] (.cons (.mk "f" .file .nil) .nil) (fun _ => emptyNode)) := by
  intro h
  have h4 := congrArg (Except.map (fun r : List Action × FS => r.1)) h
  have h3 : (Except.ok [Action.link ["s", "f"] ["d", "f"]] : Except RunErr (List Action))
      = Except.error (RunErr.fileNotFound ["d", "f"]) := h4
  exact Except.noConfusion h3

/-- Claim C4 (amended): for every configuration with the hard-link
flag clear, working directory, well-formed source listing (sibling
names distinct and ordinary, as every real filesystem guarantees) and
initial filesystem, the run with dry-run on returns exactly the action
list the run with dry-run off performs as filesystem changes, leaving
the filesystem untouched, and both runs apply identical conflict
detection, failing with the same error on the same entry when they
fail.  With the hard-link flag set the mutating run instead aborts at
its first link with the uncaught FileNotFoundError of the
reversed-argument link_to call (see the C5 material), while the dry
run reports the link. -/
theorem c4_dry_run_equiv (cfg : Config) (cwd : Parts) (tree : EntryList) (fs : FS)
    (hhl : cfg.hardLinks = false) (hv : validL tree = true) :
    runDeeplink { cfg with dryRun := true } cwd tree fs
      = Except.map (fun r => (r.1, fs)) (runDeeplink { cfg with dryRun := false } cwd tree fs) := by
  have hrel := walkList_equiv cfg cwd cfg.source tree fs fs hhl (fun q _ => rfl)
    (listTargets_nodup cfg.source cfg.destination tree hv)
  show walkList { cfg with dryRun := true } cwd cfg.source tree fs
    = Except.map (fun r => (r.1, fs))
        (walkList { cfg with dryRun := false } cwd cfg.source tree fs)
  rcases hD : walkList { cfg with dryRun := true } cwd cfg.source tree fs
    with a | ⟨as1, f1⟩ <;>
    rcases hR : walkList { cfg with dryRun := false } cwd cfg.source tree fs
      with b | ⟨as2, f2⟩ <;> rw [hD, hR] at hrel
  · have hab : a = b := hrel
    rw [hab]
    rfl
  · exact False.elim hrel
  · exact False.elim hrel
  · obtain ⟨ha, hf1, _⟩ := hrel
    rw [ha, hf1]
    rfl

theorem c4_witness :
    (⟨["s"], ["d"], false, false, [], []⟩ : Config).hardLinks = false
      ∧ validL (.cons (.mk "a" .dir (.cons (.mk "f" .file .nil) .nil))
        (.cons (.mk "g" .file .nil) .nil)) = true
      ∧ runDeeplink { (⟨["s"], ["d"], false, false, [], []⟩ : Config) with dryRun := true }
          ["/", "w"]
          (.cons (.mk "a" .dir (.cons (.mk "f" .file .nil) .nil))
            (.cons (.mk "g" .file .nil) .nil)) (fun _ => emptyNode)
        = Except.map (fun r => (r.1, (fun _ => emptyNode : FS)))
            (runDeeplink { (⟨["s"], ["d"], false, false, [], []⟩ : Config) with dryRun := false }
              ["/", "w"]
              (.cons (.mk "a" .dir (.cons (.mk "f" .file .nil) .nil))
                (.cons (.mk "g" .file .nil) .nil)) (fun _ => emptyNode)) :=
  ⟨by decide, by decide,
    c4_dry_run_equiv ⟨["s"], ["d"], false, false, [], []⟩ ["/", "w"]
      (.cons (.mk "a" .dir (.cons (.mk "f" .file .nil) .nil))
        (.cons (.mk "g" .file .nil) .nil)) (fun _ => emptyNode) (by decide) (by decide)⟩

end Deeplink
